import Mathlib

set_option maxHeartbeats 1000000

/-!
Verification development for the dataset-profiling Lambda pipeline
(`src/lambda/node.js`).  The JavaScript source is shallowly embedded:
JS numbers are modelled as exact rationals extended with `NaN` and the
two infinities, rows are association lists from column name to cell
text, and the handler is modelled as a deterministic function of a
collaborator oracle that records the trace of collaborator calls.
-/

/-- JavaScript number values relevant to the pipeline: `NaN`, the two
infinities, and finite values modelled as exact rationals. -/
inductive JSNum where
  | nan
  | posInf
  | negInf
  | fin (q : ℚ)
  deriving DecidableEq, Repr

/-- JS `isNaN` on an already-converted number. -/
def JSNum.isNaN : JSNum → Bool
  | .nan => true
  | _ => false

/-- JS `+` on numbers (`Infinity + (-Infinity) = NaN`, infinities absorb). -/
def jsAdd : JSNum → JSNum → JSNum
  | .nan, _ => .nan
  | _, .nan => .nan
  | .posInf, .negInf => .nan
  | .negInf, .posInf => .nan
  | .posInf, _ => .posInf
  | _, .posInf => .posInf
  | .negInf, _ => .negInf
  | _, .negInf => .negInf
  | .fin a, .fin b => .fin (a + b)

/-- JS `/` on numbers (sign of zero is not modelled; the pipeline only
divides by a positive count). -/
def jsDiv : JSNum → JSNum → JSNum
  | .nan, _ => .nan
  | _, .nan => .nan
  | .posInf, .posInf => .nan
  | .posInf, .negInf => .nan
  | .negInf, .posInf => .nan
  | .negInf, .negInf => .nan
  | .posInf, .fin b => if b < 0 then .negInf else .posInf
  | .negInf, .fin b => if b < 0 then .posInf else .negInf
  | .fin _, .posInf => .fin 0
  | .fin _, .negInf => .fin 0
  | .fin a, .fin b =>
    if b = 0 then (if a = 0 then .nan else if 0 < a then .posInf else .negInf)
    else .fin (a / b)

/-- JS `Math.min` on two numbers. -/
def mathMin : JSNum → JSNum → JSNum
  | .nan, _ => .nan
  | _, .nan => .nan
  | .negInf, _ => .negInf
  | _, .negInf => .negInf
  | .posInf, b => b
  | a, .posInf => a
  | .fin a, .fin b => .fin (min a b)

/-- JS `Math.max` on two numbers. -/
def mathMax : JSNum → JSNum → JSNum
  | .nan, _ => .nan
  | _, .nan => .nan
  | .posInf, _ => .posInf
  | _, .posInf => .posInf
  | .negInf, b => b
  | a, .negInf => a
  | .fin a, .fin b => .fin (max a b)

/-- JS unary minus on numbers. -/
def jsNeg : JSNum → JSNum
  | .nan => .nan
  | .posInf => .negInf
  | .negInf => .posInf
  | .fin q => .fin (-q)

/-- JS whitespace characters skipped by `parseFloat` (space, tab, LF,
CR, VT, FF; the exotic Unicode space characters are not needed by any
input considered here). -/
def isWs (c : Char) : Bool :=
  c.toNat = 32 || c.toNat = 9 || c.toNat = 10 || c.toNat = 13 || c.toNat = 11 || c.toNat = 12

/-- Decimal digit test, phrased on character codes. -/
def isDigitChar (c : Char) : Bool :=
  48 ≤ c.toNat && c.toNat ≤ 57

/-- Numeric value of a decimal digit character. -/
def digitVal (c : Char) : Nat := c.toNat - 48

/-- Consume the maximal run of decimal digits, returning their values and
the rest of the input. -/
def takeDigits : List Char → List Nat × List Char
  | [] => ([], [])
  | c :: cs =>
    if isDigitChar c then
      (digitVal c :: (takeDigits cs).1, (takeDigits cs).2)
    else ([], c :: cs)

/-- Value of a most-significant-first digit list. -/
def digitsVal (ds : List Nat) : Nat := ds.foldl (fun a d => 10 * a + d) 0

/-- Whether the first list occurs at the start of the second. -/
def startsList : List Char → List Char → Bool
  | [], _ => true
  | _ :: _, [] => false
  | a :: as, b :: bs => a == b && startsList as bs

/-- Exponent part of a decimal literal: `e`/`E`, an optional sign, then
digits.  An `e` not followed by digits contributes exponent `0`, matching
`parseFloat`'s longest-valid-stem rule (`"1e"` parses as `1`). -/
def parseExpPart : List Char → Int
  | [] => 0
  | c :: cs =>
    if c = 'e' ∨ c = 'E' then
      match cs with
      | [] => 0
      | d :: cs2 =>
        if d = '+' then Int.ofNat (digitsVal (takeDigits cs2).1)
        else if d = '-' then -Int.ofNat (digitsVal (takeDigits cs2).1)
        else Int.ofNat (digitsVal (takeDigits (d :: cs2)).1)
    else 0

/-- Scale a rational by a power of ten (the effect of a decimal exponent). -/
def applyExp (q : ℚ) (e : Int) : ℚ :=
  if 0 ≤ e then q * (10 : ℚ) ^ e.toNat else q / (10 : ℚ) ^ (-e).toNat

/-- Value contributed by the fraction digits of a decimal literal. -/
def fracVal (ds : List Nat) : ℚ :=
  (digitsVal ds : ℚ) / (10 : ℚ) ^ ds.length

/-- Fraction part of a decimal literal: digits after a leading decimal
point, if present. -/
def fracPart (l : List Char) : List Nat × List Char :=
  match l with
  | [] => ([], [])
  | c :: rest => if c = '.' then takeDigits rest else ([], l)

/-- Characters of the literal `Infinity` accepted by `parseFloat`. -/
def infinityChars : List Char := ['I', 'n', 'f', 'i', 'n', 'i', 't', 'y']

/-- Unsigned part of JS `parseFloat`: the literal `Infinity`, or decimal
digits with optional fraction and exponent; `NaN` when no digits occur
before or after the decimal point. -/
def parseUnsignedFloat (l : List Char) : JSNum :=
  if startsList infinityChars l then .posInf
  else if (takeDigits l).1.isEmpty && (fracPart (takeDigits l).2).1.isEmpty then .nan
  else
    .fin (applyExp ((digitsVal (takeDigits l).1 : ℚ) + fracVal (fracPart (takeDigits l).2).1)
      (parseExpPart (fracPart (takeDigits l).2).2))

/-- Signed part of JS `parseFloat`: an optional sign, then the unsigned
literal. -/
def parseSigned : List Char → JSNum
  | [] => parseUnsignedFloat []
  | c :: rest =>
    if c = '+' then parseUnsignedFloat rest
    else if c = '-' then jsNeg (parseUnsignedFloat rest)
    else parseUnsignedFloat (c :: rest)

/-- JS `parseFloat` on a character list: skip leading whitespace, read an
optional sign, then the unsigned literal; trailing characters are ignored. -/
def parseFloatL (l : List Char) : JSNum :=
  parseSigned (l.dropWhile isWs)

/-- JS `parseFloat` on a string. -/
def parseFloat (s : String) : JSNum := parseFloatL s.data

example : parseFloat "10" = .fin 10 := by with_unfolding_all rfl
example : parseFloat "20" = .fin 20 := by with_unfolding_all rfl
example : parseFloat "x" = .nan := by with_unfolding_all rfl
example : parseFloat "" = .nan := by with_unfolding_all rfl
example : parseFloat "3.5kg" = .fin (7/2) := by with_unfolding_all rfl
example : parseFloat "Infinity" = .posInf := by with_unfolding_all rfl
example : parseFloat "-Infinity" = .negInf := by with_unfolding_all rfl
example : parseFloat "  -2.5e1" = .fin (-25) := by with_unfolding_all rfl
example : parseFloat "1e" = .fin 1 := by with_unfolding_all rfl
example : parseFloat ".5" = .fin (1/2) := by with_unfolding_all rfl
example : parseFloat "." = .nan := by with_unfolding_all rfl
example : parseFloat "undefined" = .nan := by with_unfolding_all rfl

/-- A decoded row: an association list from column name to raw cell text
(the decoders deliver rows as field maps; cell values are modelled as
text, with numeric interpretation deferred to the profiler). -/
abbrev Row := List (String × String)

/-- JS field access `r[col]` as fed to `parseFloat`: a missing key yields
`undefined`, which `parseFloat` coerces to the text `"undefined"` (and
hence to `NaN`). -/
def getCell (r : Row) (col : String) : String :=
  match r.lookup col with
  | some v => v
  | none => "undefined"

/-- The per-column numeric extraction of `buildProfile`:
`rows.map((r) => parseFloat(r[col])).filter((n) => !isNaN(n))`. -/
def colNums (rows : List Row) (col : String) : List JSNum :=
  (rows.map (fun r => parseFloat (getCell r col))).filter (fun n => !n.isNaN)

/-- Per-column statistics record of the profile. -/
structure ColumnStat where
  count : Nat
  sum : JSNum
  avg : JSNum
  min : JSNum
  max : JSNum
  deriving DecidableEq, Repr

/-- The dataset profile: total row count plus per-column statistics, kept
in first-encounter (insertion) order. -/
structure DatasetProfile where
  rowCount : Nat
  numericCols : List (String × ColumnStat)
  deriving DecidableEq, Repr

/-- JS `nums.reduce((a, b) => a + b, 0)`. -/
def jsSum (nums : List JSNum) : JSNum := nums.foldl jsAdd (.fin 0)

/-- JS `Math.min(...nums)`: fold of `Math.min`, whose unit is `Infinity`. -/
def mathMinList (nums : List JSNum) : JSNum := nums.foldl mathMin .posInf

/-- JS `Math.max(...nums)`: fold of `Math.max`, whose unit is `-Infinity`. -/
def mathMaxList (nums : List JSNum) : JSNum := nums.foldl mathMax .negInf

/-- The statistics record `buildProfile` assembles for one column from its
extracted numeric values. -/
def mkColumnStat (nums : List JSNum) : ColumnStat :=
  ⟨nums.length, jsSum nums, jsDiv (jsSum nums) (.fin nums.length),
    mathMinList nums, mathMaxList nums⟩

/-- `buildProfile` from `src/lambda/node.js`: empty input short-circuits
to the empty profile; otherwise the column set is the first row's key
list, and a column is kept iff at least one of its values has a
non-`NaN` `parseFloat` result. -/
def buildProfile (rows : List Row) : DatasetProfile :=
  if rows.length = 0 then ⟨0, []⟩
  else
    ⟨rows.length,
      ((rows.headD []).map Prod.fst).filterMap (fun col =>
        let nums := colNums rows col
        if nums.length > 0 then some (col, mkColumnStat nums) else none)⟩

/-- Value held by one cell of the Power BI summary table: a JS number or
a text (the sentinel row leaves `Sum`..`Max` as empty text). -/
inductive CellVal where
  | num (n : JSNum)
  | str (s : String)
  deriving DecidableEq, Repr

/-- One record of the Power BI CSV summary before serialization, in the
fixed field schema `[Column, Count, Sum, Avg, Min, Max]`. -/
structure StatRow where
  Column : String
  Count : CellVal
  Sum : CellVal
  Avg : CellVal
  Min : CellVal
  Max : CellVal
  deriving DecidableEq, Repr

/-- The record list `csvRows` assembled by the handler: one record per
`numericCols` entry in insertion order, with the `__ROWCOUNT__` sentinel
record placed first by `unshift`. -/
def csvRows (profile : DatasetProfile) : List StatRow :=
  ⟨"__ROWCOUNT__", .num (.fin profile.rowCount), .str "", .str "", .str "", .str ""⟩ ::
    profile.numericCols.map (fun p =>
      ⟨p.1, .num (.fin p.2.count), .num p.2.sum, .num p.2.avg, .num p.2.min, .num p.2.max⟩)

/-- Base-ten digit values of `n`, least significant first, with explicit
fuel to keep the recursion structural. -/
def decDigitsRev (fuel n : Nat) : List Nat :=
  match fuel with
  | 0 => []
  | fuel + 1 => if n = 0 then [] else n % 10 :: decDigitsRev fuel (n / 10)

/-- Decimal digit characters of a natural number, most significant first. -/
def natDigits (n : Nat) : List Char :=
  if n = 0 then ['0'] else ((decDigitsRev n n).reverse.map Nat.digitChar)

/-- Decimal rendering of a natural number. -/
def natToString (n : Nat) : String := ⟨natDigits n⟩

/-- Decimal rendering of an integer. -/
def intToString (i : Int) : String :=
  if i < 0 then "-" ++ natToString i.natAbs else natToString i.natAbs

/-- Rendering of a finite JS number to text.  Integral values render as
their decimal digits, exactly as in JS; for non-integral values the model
renders `num/den`, abstracting binary64 shortest-decimal printing (no
claim proved here depends on the text of a non-integral value, only on
the rendering being a fixed pure function of the value). -/
def ratToString (q : ℚ) : String :=
  if q.den = 1 then intToString q.num
  else intToString q.num ++ "/" ++ natToString q.den

/-- JS number-to-text conversion used when a number cell is serialized. -/
def jsNumToString : JSNum → String
  | .nan => "NaN"
  | .posInf => "Infinity"
  | .negInf => "-Infinity"
  | .fin q => ratToString q

/-- CSV quoting of a text cell per json2csv's defaults: wrap in double
quotes, doubling any embedded double quote. -/
def quoteCsv (s : String) : String :=
  ⟨'"' :: (s.data.flatMap (fun c => if c = '"' then ['"', '"'] else [c])) ++ ['"']⟩

/-- Serialization of a single cell: numbers bare, texts quoted. -/
def cellToCsv : CellVal → String
  | .num n => jsNumToString n
  | .str s => quoteCsv s

/-- Serialization of one record in the fixed field order. -/
def statRowToCsv (r : StatRow) : String :=
  String.intercalate ","
    [quoteCsv r.Column, cellToCsv r.Count, cellToCsv r.Sum,
      cellToCsv r.Avg, cellToCsv r.Min, cellToCsv r.Max]

/-- Header line of the stats table in the fixed field order. -/
def csvHeader : String :=
  String.intercalate ","
    ["\"Column\"", "\"Count\"", "\"Sum\"", "\"Avg\"", "\"Min\"", "\"Max\""]

/-- `csvParser.parse(csvRows)`: the serialized stats table. -/
def csvSummary (profile : DatasetProfile) : String :=
  String.intercalate "\n" (csvHeader :: (csvRows profile).map statRowToCsv)

/-- JS `String#split` with a single-character separator (keeps empty
pieces, always returns at least one piece). -/
def splitOnChar (sep : Char) : List Char → List (List Char)
  | [] => [[]]
  | c :: cs =>
    match splitOnChar sep cs with
    | [] => [[]]
    | p :: ps => if c = sep then [] :: p :: ps else (c :: p) :: ps

/-- `key.split("/").pop().split(".")[0]` from the handler: the final path
segment truncated at its first dot. -/
def baseNameL (key : List Char) : List Char :=
  (splitOnChar '.' ((splitOnChar '/' key).getLastD [])).headD []

/-- Output base name derived from the input key. -/
def baseName (key : String) : String := ⟨baseNameL key.data⟩

/-- JS `String#endsWith`, phrased on reversed character lists. -/
def jsEndsWith (s suffix : String) : Bool :=
  startsList suffix.data.reverse s.data.reverse

/-- The three output object keys, in the order they are written. -/
def outputKeys (key : String) : List String :=
  ["summaries/" ++ baseName key ++ ".txt",
    "summaries/" ++ baseName key ++ ".json",
    "summaries/" ++ baseName key ++ ".csv"]

example : baseName "folder/report.2024.xlsx" = "report" := by with_unfolding_all rfl

/-- Response mode requested from the text-generation collaborator. -/
inductive GenMode where
  | freeText
  | jsonObject
  deriving DecidableEq, Repr

/-- A collaborator call made by the handler, as recorded in the trace. -/
inductive Event where
  | fetch (bucket key : String)
  | generate (mode : GenMode)
  | put (key body : String)
  deriving DecidableEq, Repr

/-- Failure modes of one invocation. -/
inductive PipeErr where
  | storage
  | unsupportedFormat
  | decodeFailure
  | generation
  | putFailure
  deriving DecidableEq, Repr

/-- Behaviour of the external collaborators during one invocation:
`none` models the corresponding call (or the decode step) raising. -/
structure Collab where
  fetched : Option String
  decoded : Option (List Row)
  genText : Option String
  genJson : Option String
  putOk : String → Bool

/-- The sequential `for (const out of outputs)` persist loop: each write
is attempted in order and the first failing write raises, ending the
loop. -/
def runPuts (c : Collab) : List (String × String) → List Event × Except PipeErr Unit
  | [] => ([], .ok ())
  | (k, b) :: rest =>
    if c.putOk k then
      let r := runPuts c rest
      (.put k b :: r.1, r.2)
    else ([.put k b], .error .putFailure)

/-- The Lambda `handler` as a function of the collaborator behaviour,
returning the ordered trace of collaborator calls and the invocation
outcome.  It mirrors the source order: the object is fetched first, only
then is the key's extension examined; next the rows are profiled, the
two summaries generated, and the three outputs written in order.  The
surrounding `catch` block only logs and re-raises, so every failure
aborts the remaining steps and surfaces in the outcome. -/
def handler (c : Collab) (bucket key : String) : List Event × Except PipeErr Unit :=
  let ev0 : List Event := [.fetch bucket key]
  match c.fetched with
  | none => (ev0, .error .storage)
  | some _ =>
    if (jsEndsWith key ".csv" || jsEndsWith key ".xlsx") = true then
      match c.decoded with
      | none => (ev0, .error .decodeFailure)
      | some rows =>
        let profile := buildProfile rows
        match c.genText with
        | none => (ev0 ++ [.generate .freeText], .error .generation)
        | some t1 =>
          match c.genJson with
          | none => (ev0 ++ [.generate .freeText, .generate .jsonObject], .error .generation)
          | some t2 =>
            let outs := [("summaries/" ++ baseName key ++ ".txt", t1),
              ("summaries/" ++ baseName key ++ ".json", t2),
              ("summaries/" ++ baseName key ++ ".csv", csvSummary profile)]
            let r := runPuts c outs
            (ev0 ++ [.generate .freeText, .generate .jsonObject] ++ r.1, r.2)
    else (ev0, .error .unsupportedFormat)

/-- The three-row example of the specification. -/
def exampleRows : List Row := [[("amt", "10")], [("amt", "20")], [("amt", "x")]]

example :
    buildProfile exampleRows =
      ⟨3, [("amt", ⟨2, .fin 30, .fin 15, .fin 10, .fin 20⟩)]⟩ := by
  with_unfolding_all rfl

theorem buildProfile_rowCount (rows : List Row) :
    (buildProfile rows).rowCount = rows.length := by
  unfold buildProfile
  by_cases h : rows.length = 0 <;> simp [h]

theorem mem_numericCols {rows : List Row} {col : String} {stat : ColumnStat}
    (h : (col, stat) ∈ (buildProfile rows).numericCols) :
    0 < (colNums rows col).length ∧ stat = mkColumnStat (colNums rows col) := by
  unfold buildProfile at h
  by_cases hr : rows.length = 0
  · simp [hr] at h
  · simp only [if_neg hr] at h
    rcases List.mem_filterMap.mp h with ⟨c, _, hfc⟩
    split at hfc
    · rename_i hn
      injection hfc with h1
      simp only [Prod.mk.injEq] at h1
      obtain ⟨rfl, rfl⟩ := h1
      exact ⟨hn, rfl⟩
    · cases hfc

/-- C6: for every row sequence, `profile(rows).rowCount` equals
`length(rows)`; unparseable or missing values never lower it, since the
row count is taken from the input length before any parsing. -/
theorem profile_rowCount_eq_length (rows : List Row) :
    (buildProfile rows).rowCount = rows.length :=
  buildProfile_rowCount rows

/-- C5: every column present in `numericCols` has `count ≥ 1`; when
`rowCount = 0` the `numericCols` mapping is empty; and the empty row
sequence yields exactly `{rowCount: 0, numericCols: {}}`. -/
theorem profile_invariant (rows : List Row) :
    (∀ p ∈ (buildProfile rows).numericCols, 1 ≤ p.2.count) ∧
    ((buildProfile rows).rowCount = 0 → (buildProfile rows).numericCols = []) ∧
    buildProfile [] = ⟨0, []⟩ := by
  refine ⟨?_, ?_, rfl⟩
  · rintro ⟨col, stat⟩ hp
    rcases mem_numericCols hp with ⟨hn, rfl⟩
    simpa [mkColumnStat] using hn
  · intro h0
    have hlen := buildProfile_rowCount rows
    rw [h0] at hlen
    have hnil : rows = [] := List.eq_nil_of_length_eq_zero hlen.symm
    subst hnil
    rfl

/-- Witness for C5 at the three-row example and at the empty sequence. -/
theorem profile_invariant_witness :
    1 ≤ (ColumnStat.count ⟨2, .fin 30, .fin 15, .fin 10, .fin 20⟩) ∧
    buildProfile [] = ⟨0, []⟩ :=
  ⟨(profile_invariant exampleRows).1 ("amt", ⟨2, .fin 30, .fin 15, .fin 10, .fin 20⟩)
      (by with_unfolding_all decide),
    (profile_invariant exampleRows).2.2⟩

/-- C1: the `[{amt:"10"},{amt:"20"},{amt:"x"}]` scenario profiles to
`{rowCount: 3, numericCols: {amt: {count: 2, sum: 30, avg: 15, min: 10,
max: 20}}}`; and in general every column of `numericCols` carries:
`count` = number of values whose `parseFloat` result is a number (not
`NaN`), `sum` = JS sum of those parsed values, `avg = sum / count`, and
`min`/`max` ranging over the parsed values only. -/
theorem profile_column_stats :
    buildProfile exampleRows =
      ⟨3, [("amt", ⟨2, .fin 30, .fin 15, .fin 10, .fin 20⟩)]⟩ ∧
    ∀ (rows : List Row) (col : String) (stat : ColumnStat),
      (col, stat) ∈ (buildProfile rows).numericCols →
        stat.count = (colNums rows col).length ∧
        stat.sum = jsSum (colNums rows col) ∧
        stat.avg = jsDiv stat.sum (.fin stat.count) ∧
        stat.min = mathMinList (colNums rows col) ∧
        stat.max = mathMaxList (colNums rows col) := by
  constructor
  · with_unfolding_all rfl
  · intro rows col stat h
    rcases mem_numericCols h with ⟨_, rfl⟩
    exact ⟨rfl, rfl, rfl, rfl, rfl⟩

/-- Witness for C1 at the example's `amt` column. -/
theorem profile_column_stats_witness :
    (⟨2, .fin 30, .fin 15, .fin 10, .fin 20⟩ : ColumnStat).count =
      (colNums exampleRows "amt").length ∧
    (⟨2, .fin 30, .fin 15, .fin 10, .fin 20⟩ : ColumnStat).sum =
      jsSum (colNums exampleRows "amt") ∧
    (⟨2, .fin 30, .fin 15, .fin 10, .fin 20⟩ : ColumnStat).avg =
      jsDiv (⟨2, .fin 30, .fin 15, .fin 10, .fin 20⟩ : ColumnStat).sum
        (.fin (⟨2, .fin 30, .fin 15, .fin 10, .fin 20⟩ : ColumnStat).count) ∧
    (⟨2, .fin 30, .fin 15, .fin 10, .fin 20⟩ : ColumnStat).min =
      mathMinList (colNums exampleRows "amt") ∧
    (⟨2, .fin 30, .fin 15, .fin 10, .fin 20⟩ : ColumnStat).max =
      mathMaxList (colNums exampleRows "amt") :=
  profile_column_stats.2 exampleRows "amt" ⟨2, .fin 30, .fin 15, .fin 10, .fin 20⟩
    (by with_unfolding_all decide)

/-- A one-row input whose sole cell reads `Infinity`. -/
def infRows : List Row := [[("amt", "Infinity")]]

/-- C2 counterexample: a cell reading `"Infinity"` parses to the value
`Infinity`, which is NOT `NaN` and therefore survives the
`filter((n) => !isNaN(n))` step: the column is kept with `count = 1` and
infinite `sum`/`avg`/`min`/`max`, instead of being discarded as the claim
requires (which would leave `numericCols` empty). -/
theorem infinity_counted_counterexample :
    parseFloat "Infinity" = .posInf ∧
    (buildProfile infRows).numericCols =
      [("amt", ⟨1, .posInf, .posInf, .posInf, .posInf⟩)] ∧
    (buildProfile infRows).numericCols ≠ [] := by
  refine ⟨?_, ?_, ?_⟩ <;> with_unfolding_all decide

/-- C2 amended: only values whose `parseFloat` result is `NaN` are
treated as unparseable and discarded (a trailing `NaN`-valued row changes
no column's extracted values); values parsing to an infinity are kept and
contribute to `count`, `sum`, `avg`, `min` and `max`, as the `Infinity`
example shows. -/
theorem nan_discarded_infinity_kept :
    (∀ (rows : List Row) (r' : Row) (col : String),
      (parseFloat (getCell r' col)).isNaN = true →
      colNums (rows ++ [r']) col = colNums rows col) ∧
    (∀ (rows : List Row) (col : String) (stat : ColumnStat),
      (col, stat) ∈ (buildProfile rows).numericCols →
        stat = mkColumnStat (colNums rows col)) ∧
    (buildProfile infRows).numericCols =
      [("amt", ⟨1, .posInf, .posInf, .posInf, .posInf⟩)] := by
  refine ⟨?_, ?_, ?_⟩
  · intro rows r' col hnan
    simp [colNums, List.filter_append, hnan]
  · intro rows col stat h
    exact (mem_numericCols h).2
  · with_unfolding_all decide

theorem isWs_of_digit {c : Char} (h : isDigitChar c = true) : isWs c = false := by
  simp only [isDigitChar, Bool.and_eq_true, decide_eq_true_eq] at h
  simp only [isWs, Bool.or_eq_false_iff, decide_eq_false_iff_not]
  omega

theorem digit_ne {c d : Char} (h : isDigitChar c = true) (hd : isDigitChar d = false) :
    c ≠ d := by
  intro he
  subst he
  rw [h] at hd
  cases hd

theorem startsList_infinity_digit {c : Char} (h : isDigitChar c = true) (l : List Char) :
    startsList infinityChars (c :: l) = false := by
  have hne : c ≠ 'I' := digit_ne h (by decide)
  simp only [infinityChars, startsList]
  rw [show ('I' == c) = false from beq_eq_false_iff_ne.mpr (Ne.symm hne)]
  rfl

theorem takeDigits_digits_append (ds rest : List Char)
    (h1 : ∀ c ∈ ds, isDigitChar c = true)
    (h2 : ∀ c, rest.head? = some c → isDigitChar c = false) :
    takeDigits (ds ++ rest) = (ds.map digitVal, rest) := by
  induction ds with
  | nil =>
    simp only [List.nil_append, List.map_nil]
    cases rest with
    | nil => rfl
    | cons c rs =>
      have hc := h2 c rfl
      simp [takeDigits, hc]
  | cons c cs ih =>
    have hc : isDigitChar c = true := h1 c (List.mem_cons_self c cs)
    simp only [List.cons_append, takeDigits, hc, if_true, List.map_cons]
    rw [show List.append cs rest = cs ++ rest from rfl,
      ih (fun x hx => h1 x (List.mem_cons_of_mem c hx))]

theorem fracPart_none (l : List Char) (h : ∀ c, l.head? = some c → c ≠ '.') :
    fracPart l = ([], l) := by
  cases l with
  | nil => rfl
  | cons c rest => simp [fracPart, h c rfl]

theorem parseExpPart_none (l : List Char)
    (h : ∀ c, l.head? = some c → c ≠ 'e' ∧ c ≠ 'E') :
    parseExpPart l = 0 := by
  cases l with
  | nil => rfl
  | cons c rest =>
    have hc := h c rfl
    simp [parseExpPart, hc.1, hc.2]

theorem parseUnsignedFloat_digit_stem (ds rest : List Char) (hne : ds ≠ [])
    (h1 : ∀ c ∈ ds, isDigitChar c = true)
    (h2 : ∀ c, rest.head? = some c →
      isDigitChar c = false ∧ c ≠ '.' ∧ c ≠ 'e' ∧ c ≠ 'E') :
    parseUnsignedFloat (ds ++ rest) = .fin (digitsVal (ds.map digitVal)) := by
  obtain ⟨c0, ds', rfl⟩ : ∃ c0 ds', ds = c0 :: ds' := by
    cases ds with
    | nil => exact absurd rfl hne
    | cons a b => exact ⟨a, b, rfl⟩
  have hc0 : isDigitChar c0 = true := h1 c0 (List.mem_cons_self _ _)
  unfold parseUnsignedFloat
  rw [List.cons_append, startsList_infinity_digit hc0, ← List.cons_append,
    takeDigits_digits_append _ _ h1 (fun c hc => (h2 c hc).1)]
  dsimp only
  rw [fracPart_none rest (fun c hc => (h2 c hc).2.1),
    parseExpPart_none rest (fun c hc => ⟨(h2 c hc).2.2.1, (h2 c hc).2.2.2⟩)]
  simp [applyExp, fracVal, digitsVal]

theorem parseFloatL_digit_stem (ds rest : List Char) (hne : ds ≠ [])
    (h1 : ∀ c ∈ ds, isDigitChar c = true)
    (h2 : ∀ c, rest.head? = some c →
      isDigitChar c = false ∧ c ≠ '.' ∧ c ≠ 'e' ∧ c ≠ 'E') :
    parseFloatL (ds ++ rest) = .fin (digitsVal (ds.map digitVal)) := by
  obtain ⟨c0, ds', rfl⟩ : ∃ c0 ds', ds = c0 :: ds' := by
    cases ds with
    | nil => exact absurd rfl hne
    | cons a b => exact ⟨a, b, rfl⟩
  have hc0 : isDigitChar c0 = true := h1 c0 (List.mem_cons_self _ _)
  have hws := isWs_of_digit hc0
  have hplus : c0 ≠ '+' := digit_ne hc0 (by decide)
  have hminus : c0 ≠ '-' := digit_ne hc0 (by decide)
  unfold parseFloatL
  rw [List.cons_append, List.dropWhile_cons]
  simp only [hws, Bool.false_eq_true, if_false, parseSigned, hplus, hminus, ite_false]
  rw [← List.cons_append]
  exact parseUnsignedFloat_digit_stem _ rest hne h1 h2

/-- C10: a cell whose text starts with a run of decimal digits followed by
characters that cannot extend the number (such as `"3.5kg"`) is counted as
parsed: `parseFloat` returns the numeric stem's value, identical to
parsing the stem alone, and the profiler includes it in `count`, `sum`,
`avg`, `min` and `max`. -/
theorem numeric_stem_parsed :
    (∀ (ds rest : List Char), ds ≠ [] →
      (∀ c ∈ ds, isDigitChar c = true) →
      (∀ c, rest.head? = some c →
        isDigitChar c = false ∧ c ≠ '.' ∧ c ≠ 'e' ∧ c ≠ 'E') →
      parseFloatL (ds ++ rest) = parseFloatL ds ∧
      parseFloatL ds = .fin (digitsVal (ds.map digitVal))) ∧
    parseFloat "3.5kg" = .fin (7 / 2) ∧
    buildProfile [[("w", "3.5kg")]] =
      ⟨1, [("w", ⟨1, .fin (7 / 2), .fin (7 / 2), .fin (7 / 2), .fin (7 / 2)⟩)]⟩ := by
  refine ⟨?_, by with_unfolding_all rfl, by with_unfolding_all rfl⟩
  intro ds rest hne h1 h2
  have ha := parseFloatL_digit_stem ds rest hne h1 h2
  have hb := parseFloatL_digit_stem ds [] hne h1 (by intro c hc; cases hc)
  rw [List.append_nil] at hb
  exact ⟨by rw [ha, hb], hb⟩

/-- Witness for C10 at the stem `42` followed by `kg`. -/
theorem numeric_stem_parsed_witness :
    parseFloatL (['4', '2'] ++ ['k', 'g']) = parseFloatL ['4', '2'] ∧
    parseFloatL ['4', '2'] = .fin (digitsVal (['4', '2'].map digitVal)) :=
  numeric_stem_parsed.1 ['4', '2'] ['k', 'g'] (by decide) (by decide)
    (by intro c hc; injection hc with h; subst h; refine ⟨by decide, by decide, by decide, by decide⟩)

theorem decDigitsRev_eq_digits (fuel n : Nat) (h : n ≤ fuel) :
    decDigitsRev fuel n = Nat.digits 10 n := by
  induction fuel generalizing n with
  | zero =>
    have h0 : n = 0 := Nat.le_zero.mp h
    subst h0
    simp [decDigitsRev]
  | succ fuel ih =>
    by_cases h0 : n = 0
    · subst h0
      simp [decDigitsRev]
    · rw [show decDigitsRev (fuel + 1) n = n % 10 :: decDigitsRev fuel (n / 10) from by
        simp [decDigitsRev, h0]]
      rw [Nat.digits_def' (by norm_num : (1 : Nat) < 10) (Nat.pos_of_ne_zero h0)]
      have hdiv : n / 10 < n := Nat.div_lt_self (Nat.pos_of_ne_zero h0) (by norm_num)
      rw [ih (n / 10) (by omega)]

theorem foldr_eq_ofDigits (L : List Nat) :
    L.foldr (fun d a => 10 * a + d) 0 = Nat.ofDigits 10 L := by
  induction L with
  | nil => simp [Nat.ofDigits_nil]
  | cons d L ih =>
    simp only [List.foldr_cons, ih, Nat.ofDigits_cons]
    ring

theorem digitsVal_digits (n : Nat) :
    digitsVal ((Nat.digits 10 n).reverse) = n := by
  unfold digitsVal
  rw [List.foldl_reverse, foldr_eq_ofDigits, Nat.ofDigits_digits]

theorem digitVal_digitChar {d : Nat} (h : d < 10) :
    isDigitChar (Nat.digitChar d) = true ∧ digitVal (Nat.digitChar d) = d := by
  interval_cases d <;> exact ⟨by decide, by decide⟩

theorem natDigits_ne_nil (n : Nat) : natDigits n ≠ [] := by
  unfold natDigits
  by_cases h : n = 0
  · simp [h]
  · have hd : Nat.digits 10 n ≠ [] := Nat.digits_ne_nil_iff_ne_zero.mpr h
    rw [decDigitsRev_eq_digits n n le_rfl]
    simp [h, hd]

theorem natDigits_all_digits (n : Nat) : ∀ c ∈ natDigits n, isDigitChar c = true := by
  intro c hc
  unfold natDigits at hc
  by_cases h : n = 0
  · simp [h] at hc
    subst hc
    decide
  · rw [decDigitsRev_eq_digits n n le_rfl] at hc
    simp only [h, if_false, ite_false, List.mem_map, List.mem_reverse] at hc
    obtain ⟨d, hd, rfl⟩ := hc
    exact (digitVal_digitChar (Nat.digits_lt_base (by norm_num) hd)).1

theorem digitsVal_natDigits (n : Nat) :
    digitsVal ((natDigits n).map digitVal) = n := by
  unfold natDigits
  by_cases h : n = 0
  · subst h
    simp only [if_pos rfl]
    decide
  · rw [decDigitsRev_eq_digits n n le_rfl]
    simp only [h, if_false, ite_false, List.map_map]
    have hcong : ∀ d ∈ (Nat.digits 10 n).reverse, (digitVal ∘ Nat.digitChar) d = d := by
      intro d hd
      exact (digitVal_digitChar (Nat.digits_lt_base (by norm_num) (List.mem_reverse.mp hd))).2
    rw [List.map_congr_left hcong]
    simp only [List.map_id']
    exact digitsVal_digits n

theorem parseFloat_natToString (n : Nat) : parseFloat (natToString n) = .fin n := by
  have hdata : (natToString n).data = natDigits n := rfl
  rw [parseFloat, hdata]
  have hstem := parseFloatL_digit_stem (natDigits n) [] (natDigits_ne_nil n)
    (natDigits_all_digits n) (by intro c hc; simp at hc)
  rw [List.append_nil] at hstem
  rw [hstem, digitsVal_natDigits]

theorem cellToCsv_natCount (n : Nat) :
    cellToCsv (.num (.fin n)) = natToString n := by
  have h1 : ¬((n : ℤ) < 0) := by omega
  simp [cellToCsv, jsNumToString, ratToString, Rat.den_natCast, Rat.num_natCast,
    intToString, h1, Int.natAbs_ofNat]

/-- C4: the exported statistics table has exactly `1 + |numericCols|` data
rows: the `__ROWCOUNT__` sentinel first — its `Count` is `rowCount` and
its `Sum`/`Avg`/`Min`/`Max` are blank — then one row per `numericCols`
entry in that mapping's insertion order; and parsing the serialized
sentinel `Count` cell with `parseFloat` recovers `rowCount` exactly. -/
theorem export_table_shape_roundtrip (profile : DatasetProfile) :
    (csvRows profile).length = 1 + profile.numericCols.length ∧
    (csvRows profile).head? =
      some ⟨"__ROWCOUNT__", .num (.fin profile.rowCount), .str "", .str "", .str "", .str ""⟩ ∧
    (csvRows profile).tail =
      profile.numericCols.map (fun p =>
        ⟨p.1, .num (.fin p.2.count), .num p.2.sum, .num p.2.avg, .num p.2.min, .num p.2.max⟩) ∧
    parseFloat (cellToCsv (.num (.fin profile.rowCount))) = .fin profile.rowCount := by
  refine ⟨?_, rfl, rfl, ?_⟩
  · simp only [csvRows, List.length_cons, List.length_map]
    omega
  · rw [cellToCsv_natCount]
    exact parseFloat_natToString profile.rowCount

theorem splitOnChar_ne_nil (sep : Char) (l : List Char) : splitOnChar sep l ≠ [] := by
  cases l with
  | nil => simp [splitOnChar]
  | cons c cs =>
    simp only [splitOnChar]
    cases splitOnChar sep cs with
    | nil => simp
    | cons p ps => by_cases hc : c = sep <;> simp [hc]

theorem headD_splitOnChar (sep : Char) (l : List Char) :
    (splitOnChar sep l).headD [] = l.takeWhile (fun c => !(c == sep)) := by
  induction l with
  | nil => rfl
  | cons c cs ih =>
    simp only [splitOnChar]
    cases h : splitOnChar sep cs with
    | nil => exact absurd h (splitOnChar_ne_nil sep cs)
    | cons p ps =>
      rw [h] at ih
      simp only [List.headD_cons] at ih
      by_cases hc : c = sep
      · subst hc
        simp [List.takeWhile_cons]
      · simp [hc, List.takeWhile_cons, ih]

theorem getLastD_irrel {α : Type} (l : List α) (h : l ≠ []) (d d' : α) :
    l.getLastD d = l.getLastD d' := by
  cases l with
  | nil => exact absurd rfl h
  | cons a l => rw [List.getLastD_cons, List.getLastD_cons]

theorem splitOnChar_no_sep (sep : Char) (l : List Char) (h : sep ∉ l) :
    splitOnChar sep l = [l] := by
  induction l with
  | nil => rfl
  | cons c cs ih =>
    have hc : ¬(c = sep) := fun e => h (by simp [e])
    have hcs : sep ∉ cs := fun e => h (List.mem_cons_of_mem c e)
    simp only [splitOnChar, ih hcs]
    simp [hc]

theorem splitOnChar_append_length (sep : Char) (l1 l2 : List Char) :
    2 ≤ (splitOnChar sep (l1 ++ sep :: l2)).length := by
  induction l1 with
  | nil =>
    simp only [List.nil_append, splitOnChar]
    cases h : splitOnChar sep l2 with
    | nil => exact absurd h (splitOnChar_ne_nil sep l2)
    | cons p ps => simp
  | cons c l1' ih =>
    simp only [List.cons_append, splitOnChar]
    cases h : splitOnChar sep (l1' ++ sep :: l2) with
    | nil => exact absurd h (splitOnChar_ne_nil sep _)
    | cons p ps =>
      rw [h] at ih
      simp only [List.length_cons] at ih
      by_cases hc : c = sep <;> (simp [hc]; try omega)

theorem getLastD_splitOnChar_append (sep : Char) (l1 l2 : List Char) :
    (splitOnChar sep (l1 ++ sep :: l2)).getLastD [] =
      (splitOnChar sep l2).getLastD [] := by
  induction l1 with
  | nil =>
    simp only [List.nil_append, splitOnChar]
    cases h : splitOnChar sep l2 with
    | nil => exact absurd h (splitOnChar_ne_nil sep l2)
    | cons p ps =>
      simp [List.getLastD_cons]
  | cons c l1' ih =>
    simp only [List.cons_append, splitOnChar]
    have hlen := splitOnChar_append_length sep l1' l2
    cases h : splitOnChar sep (l1' ++ sep :: l2) with
    | nil => exact absurd h (splitOnChar_ne_nil sep _)
    | cons p ps =>
      rw [h] at ih hlen
      simp only [List.length_cons] at hlen
      have hps : ps ≠ [] := by
        cases ps with
        | nil => simp at hlen
        | cons a b => simp
      by_cases hc : c = sep
      · simp only [hc, if_pos rfl, List.getLastD_cons]
        exact ih
      · simp only [hc, if_false, ite_false, List.getLastD_cons]
        rw [getLastD_irrel ps hps (c :: p) p]
        simpa only [List.getLastD_cons] using ih

theorem baseNameL_after_slash (pre seg : List Char) (h : '/' ∉ seg) :
    baseNameL (pre ++ '/' :: seg) = seg.takeWhile (fun c => !(c == '.')) := by
  unfold baseNameL
  rw [getLastD_splitOnChar_append, splitOnChar_no_sep '/' seg h]
  have hl : ([seg] : List (List Char)).getLastD [] = seg := rfl
  rw [hl]
  exact headD_splitOnChar '.' seg

theorem baseNameL_no_slash (seg : List Char) (h : '/' ∉ seg) :
    baseNameL seg = seg.takeWhile (fun c => !(c == '.')) := by
  unfold baseNameL
  rw [splitOnChar_no_sep '/' seg h]
  have hl : ([seg] : List (List Char)).getLastD [] = seg := rfl
  rw [hl]
  exact headD_splitOnChar '.' seg

/-- C7: the output base name is the key's final path segment truncated at
its first dot — for a key containing a slash, the part of the key after
the last slash up to the first dot; for a slash-free key, the key up to
its first dot — and the three output keys are `summaries/<base>.txt`,
`summaries/<base>.json`, `summaries/<base>.csv`; in particular key
`folder/report.2024.xlsx` yields base `report` and output keys
`summaries/report.{txt,json,csv}`. -/
theorem baseName_spec :
    (∀ (pre seg : List Char), '/' ∉ seg →
      baseNameL (pre ++ '/' :: seg) = seg.takeWhile (fun c => !(c == '.'))) ∧
    (∀ seg : List Char, '/' ∉ seg →
      baseNameL seg = seg.takeWhile (fun c => !(c == '.'))) ∧
    (∀ key : String, outputKeys key =
      ["summaries/" ++ baseName key ++ ".txt",
        "summaries/" ++ baseName key ++ ".json",
        "summaries/" ++ baseName key ++ ".csv"]) ∧
    baseName "folder/report.2024.xlsx" = "report" ∧
    outputKeys "folder/report.2024.xlsx" =
      ["summaries/report.txt", "summaries/report.json", "summaries/report.csv"] :=
  ⟨baseNameL_after_slash, baseNameL_no_slash, fun _ => rfl,
    by with_unfolding_all rfl, by with_unfolding_all rfl⟩

/-- Witness for C7 at the key `folder/report.2024.xlsx` split at its
slash. -/
theorem baseName_spec_witness :
    baseNameL ("folder".data ++ '/' :: "report.2024.xlsx".data) =
      "report.2024.xlsx".data.takeWhile (fun c => !(c == '.')) :=
  baseName_spec.1 "folder".data "report.2024.xlsx".data (by decide)

/-- A collaborator oracle on which every external call succeeds. -/
def okCollab : Collab := ⟨some "", some [], some "narrative", some "insight", fun _ => true⟩

/-- C3 counterexample: on the unsupported key `doc.pdf` the fetch
collaborator IS invoked — the source fetches the object before examining
the key's extension — refuting the claim that no object fetch occurs; the
invocation then fails with the unsupported-format error and performs no
generation call and no write. -/
theorem fetch_before_extension_check :
    Event.fetch "data-in" "doc.pdf" ∈ (handler okCollab "data-in" "doc.pdf").1 ∧
    (handler okCollab "data-in" "doc.pdf").2 = .error .unsupportedFormat := by
  constructor
  · with_unfolding_all decide
  · with_unfolding_all rfl

/-- C3 amended: for every key whose extension is neither `.csv` nor
`.xlsx`, the handler still performs the object fetch first; the pipeline
then aborts before decode, text generation and output writes — the trace
is exactly the fetch call — and when the fetch succeeded the outcome is
the unsupported-format error (when the fetch itself failed, the storage
error propagates instead). -/
theorem unsupported_extension_aborts (c : Collab) (bucket key : String)
    (h : (jsEndsWith key ".csv" || jsEndsWith key ".xlsx") = false) :
    (handler c bucket key).1 = [.fetch bucket key] ∧
    (∀ m, Event.generate m ∉ (handler c bucket key).1) ∧
    (∀ k b, Event.put k b ∉ (handler c bucket key).1) ∧
    (c.fetched.isSome = true → (handler c bucket key).2 = .error .unsupportedFormat) ∧
    (c.fetched = none → (handler c bucket key).2 = .error .storage) := by
  cases hf : c.fetched with
  | none => simp [handler, hf]
  | some body => simp [handler, hf, h]

/-- Witness for the amended C3 at the key `a.pdf`. -/
theorem unsupported_extension_aborts_witness :
    (handler okCollab "data-in" "a.pdf").1 = [.fetch "data-in" "a.pdf"] ∧
    (∀ m, Event.generate m ∉ (handler okCollab "data-in" "a.pdf").1) ∧
    (∀ k b, Event.put k b ∉ (handler okCollab "data-in" "a.pdf").1) ∧
    (okCollab.fetched.isSome = true →
      (handler okCollab "data-in" "a.pdf").2 = .error .unsupportedFormat) ∧
    (okCollab.fetched = none →
      (handler okCollab "data-in" "a.pdf").2 = .error .storage) :=
  unsupported_extension_aborts okCollab "data-in" "a.pdf" (by decide)

theorem append_suffix_ne (pre s t : String) (hst : s.data ≠ t.data) :
    pre ++ s ≠ pre ++ t := by
  intro h
  apply hst
  have hd := congrArg String.data h
  rw [String.data_append, String.data_append] at hd
  exact List.append_cancel_left hd

theorem runPuts_mem {c : Collab} {outs : List (String × String)} {k b : String}
    (h : Event.put k b ∈ (runPuts c outs).1) : (k, b) ∈ outs := by
  induction outs with
  | nil => simp [runPuts] at h
  | cons kb rest ih =>
    obtain ⟨k', b'⟩ := kb
    by_cases hp : c.putOk k' = true
    · simp only [runPuts, hp, if_true] at h
      rcases List.mem_cons.mp h with h1 | h2
      · simp only [Event.put.injEq] at h1
        obtain ⟨rfl, rfl⟩ := h1
        exact List.mem_cons_self _ _
      · exact List.mem_cons_of_mem _ (ih h2)
    · simp only [runPuts, if_neg hp] at h
      simp only [List.mem_singleton, Event.put.injEq] at h
      obtain ⟨rfl, rfl⟩ := h
      exact List.mem_cons_self _ _

/-- C8: no error is caught and recovered internally.  The invocation
succeeds exactly when every step succeeded — fetch, a supported
extension, decode, both generation calls, and all three writes — so any
single failure fails the whole invocation; and when an earlier persist
write fails, no later output is written (no put event for a later output
key appears in the trace). -/
theorem pipeline_failure_propagation (c : Collab) (bucket key : String) :
    ((handler c bucket key).2 = .ok () ↔
      c.fetched.isSome = true ∧
      (jsEndsWith key ".csv" || jsEndsWith key ".xlsx") = true ∧
      c.decoded.isSome = true ∧
      c.genText.isSome = true ∧
      c.genJson.isSome = true ∧
      (∀ k ∈ outputKeys key, c.putOk k = true)) ∧
    (c.putOk ("summaries/" ++ baseName key ++ ".txt") = false →
      (∀ b, Event.put ("summaries/" ++ baseName key ++ ".json") b ∉
        (handler c bucket key).1) ∧
      (∀ b, Event.put ("summaries/" ++ baseName key ++ ".csv") b ∉
        (handler c bucket key).1)) ∧
    (c.putOk ("summaries/" ++ baseName key ++ ".json") = false →
      ∀ b, Event.put ("summaries/" ++ baseName key ++ ".csv") b ∉
        (handler c bucket key).1) := by
  have hne1 := append_suffix_ne ("summaries/" ++ baseName key) ".txt" ".json" (by decide)
  have hne2 := append_suffix_ne ("summaries/" ++ baseName key) ".txt" ".csv" (by decide)
  have hne3 := append_suffix_ne ("summaries/" ++ baseName key) ".json" ".csv" (by decide)
  have hne1' := hne1.symm
  have hne2' := hne2.symm
  have hne3' := hne3.symm
  cases hf : c.fetched with
  | none => simp [handler, hf, outputKeys]
  | some body =>
    by_cases hext : (jsEndsWith key ".csv" || jsEndsWith key ".xlsx") = true
    · cases hdec : c.decoded with
      | none => simp [handler, hf, hext, hdec, outputKeys]
      | some rows =>
        cases hg1 : c.genText with
        | none => simp [handler, hf, hext, hdec, hg1, outputKeys]
        | some t1 =>
          cases hg2 : c.genJson with
          | none => simp [handler, hf, hext, hdec, hg1, hg2, outputKeys]
          | some t2 =>
            by_cases hp1 : c.putOk ("summaries/" ++ baseName key ++ ".txt") = true
            · by_cases hp2 : c.putOk ("summaries/" ++ baseName key ++ ".json") = true
              · by_cases hp3 : c.putOk ("summaries/" ++ baseName key ++ ".csv") = true
                · simp [handler, runPuts, hf, hext, hdec, hg1, hg2, hp1, hp2, hp3,
                    outputKeys, hne1, hne2, hne3, hne1', hne2', hne3']
                · simp [handler, runPuts, hf, hext, hdec, hg1, hg2, hp1, hp2, hp3,
                    outputKeys, hne1, hne2, hne3, hne1', hne2', hne3']
              · simp [handler, runPuts, hf, hext, hdec, hg1, hg2, hp1, hp2,
                  outputKeys, hne1, hne2, hne3, hne1', hne2', hne3']
            · simp [handler, runPuts, hf, hext, hdec, hg1, hg2, hp1,
                outputKeys, hne1, hne2, hne3, hne1', hne2', hne3']
    · have hext' : (jsEndsWith key ".csv" || jsEndsWith key ".xlsx") = false := by
        simpa using hext
      simp [handler, hf, hext', outputKeys]

/-- A collaborator oracle whose writes fail exactly on `.json` output
keys. -/
def failPutCollab : Collab :=
  ⟨some "", some [], some "narrative", some "insight", fun k => !(jsEndsWith k ".json")⟩

/-- Witness for C8: with the `.json` write failing on key `data.csv`, the
`.csv` output is never written. -/
theorem pipeline_failure_propagation_witness :
    Event.put ("summaries/" ++ baseName "data.csv" ++ ".csv") "x" ∉
      (handler failPutCollab "bkt" "data.csv").1 :=
  (pipeline_failure_propagation failPutCollab "bkt" "data.csv").2.2 (by decide) "x"

theorem jsEndsWith_txt_not_csv (s : String) : jsEndsWith (s ++ ".txt") ".csv" = false := by
  have h1 : (s ++ ".txt").data.reverse = 't' :: 'x' :: 't' :: '.' :: s.data.reverse := by
    rw [String.data_append, show (".txt" : String).data = ['.', 't', 'x', 't'] from rfl]
    simp
  rw [jsEndsWith, h1, show (".csv" : String).data.reverse = ['v', 's', 'c', '.'] from rfl]
  rfl

theorem jsEndsWith_json_not_csv (s : String) : jsEndsWith (s ++ ".json") ".csv" = false := by
  have h1 : (s ++ ".json").data.reverse = 'n' :: 'o' :: 's' :: 'j' :: '.' :: s.data.reverse := by
    rw [String.data_append, show (".json" : String).data = ['.', 'j', 's', 'o', 'n'] from rfl]
    simp
  rw [jsEndsWith, h1, show (".csv" : String).data.reverse = ['v', 's', 'c', '.'] from rfl]
  rfl

theorem put_csv_body {c : Collab} {bucket key pk pb : String} {rows : List Row}
    (hd : c.decoded = some rows)
    (hm : Event.put pk pb ∈ (handler c bucket key).1)
    (he : jsEndsWith pk ".csv" = true) :
    pb = csvSummary (buildProfile rows) := by
  cases hf : c.fetched with
  | none => simp [handler, hf] at hm
  | some body =>
    by_cases hext : (jsEndsWith key ".csv" || jsEndsWith key ".xlsx") = true
    · cases hg1 : c.genText with
      | none => simp [handler, hf, hext, hd, hg1] at hm
      | some t1 =>
        cases hg2 : c.genJson with
        | none => simp [handler, hf, hext, hd, hg1, hg2] at hm
        | some t2 =>
          simp only [handler, hf, hext, hd, hg1, hg2, if_true, List.cons_append,
            List.nil_append, List.mem_cons] at hm
          rcases hm with h1 | h1 | h1 | hput
          · exact Event.noConfusion h1
          · exact Event.noConfusion h1
          · exact Event.noConfusion h1
          · have hmem := runPuts_mem hput
            simp only [List.mem_cons, List.not_mem_nil, or_false, Prod.mk.injEq] at hmem
            rcases hmem with ⟨rfl, rfl⟩ | ⟨rfl, rfl⟩ | ⟨rfl, rfl⟩
            · rw [jsEndsWith_txt_not_csv] at he
              cases he
            · rw [jsEndsWith_json_not_csv] at he
              cases he
            · rfl
    · have hext' : (jsEndsWith key ".csv" || jsEndsWith key ".xlsx") = false := by
        simpa using hext
      simp [handler, hf, hext'] at hm

/-- C9: the statistics-table output is deterministic.  Any object write
whose key ends in `.csv` carries exactly the serialized stats table of
the profile of the decoded rows, so two invocations whose decode step
produced the same row content write byte-identical `.csv` bodies,
whatever the buckets, input keys, generation responses or write outcomes
were. -/
theorem csv_output_deterministic
    (c₁ c₂ : Collab) (b₁ b₂ k₁ k₂ : String) (rows : List Row)
    (h₁ : c₁.decoded = some rows) (h₂ : c₂.decoded = some rows)
    (pk₁ pb₁ pk₂ pb₂ : String)
    (m₁ : Event.put pk₁ pb₁ ∈ (handler c₁ b₁ k₁).1)
    (m₂ : Event.put pk₂ pb₂ ∈ (handler c₂ b₂ k₂).1)
    (e₁ : jsEndsWith pk₁ ".csv" = true) (e₂ : jsEndsWith pk₂ ".csv" = true) :
    pb₁ = pb₂ := by
  rw [put_csv_body h₁ m₁ e₁, put_csv_body h₂ m₂ e₂]

/-- A second all-success collaborator oracle, differing from `okCollab`
in payload and generated texts but decoding the same (empty) rows. -/
def okCollab2 : Collab :=
  ⟨some "payload", some [], some "other narrative", some "other insight", fun _ => true⟩

/-- Witness for C9: two runs over different buckets, keys and generation
responses, with the same decoded rows, write the same `.csv` body. -/
theorem csv_output_deterministic_witness :
    csvSummary (buildProfile []) = csvSummary (buildProfile []) :=
  csv_output_deterministic okCollab okCollab2 "b1" "b2" "in1.csv" "in2.xlsx" []
    rfl rfl "summaries/in1.csv" (csvSummary (buildProfile []))
    "summaries/in2.csv" (csvSummary (buildProfile []))
    (by with_unfolding_all decide) (by with_unfolding_all decide)
    (by decide) (by decide)

/-- Witness for the amended C2: appending a row whose cell reads `zzz`
(a `NaN` parse) leaves the `amt` column's extracted values unchanged. -/
theorem nan_discarded_infinity_kept_witness :
    colNums (exampleRows ++ [[("amt", "zzz")]]) "amt" = colNums exampleRows "amt" ∧
    (buildProfile infRows).numericCols =
      [("amt", ⟨1, .posInf, .posInf, .posInf, .posInf⟩)] :=
  ⟨nan_discarded_infinity_kept.1 exampleRows [("amt", "zzz")] "amt" (by with_unfolding_all rfl),
    nan_discarded_infinity_kept.2.2⟩
